import Mathlib

set_option linter.unusedSectionVars false

attribute [local semireducible] Rat.mul Rat.inv Rat.add Rat.sub Rat.ofScientific

deriving instance DecidableEq for Except

/-!
Shallow embedding of `src/MyHashTable.py` (class `MyHashTable`): an open-addressing
hash table with linear probing, collision logging, and load-factor-triggered
resizing.  Machine-level details modelled:

* `_data` is a fixed-length list of optional `(key, value)` records.
* `_n_data` is a Python `int`; it is modelled as `Int` because `__delitem__`
  decrements it unconditionally, so it can go negative.
* `max_utilization_fraction` is a Python float compared against
  `len(self) / self.n_buckets`; both are modelled as exact rationals (`ℚ`).
  Every concrete value used in theorems below is exactly representable in
  binary floating point, so the comparison outcomes agree with the source.
* Python exceptions are modelled by `Except` values; errors carry the table
  state as it stands when the exception propagates (Python mutates in place).
* The mutual recursion `__setitem__` → `_resize_data` → `__setitem__` is
  modelled with a fuel parameter (`exec`); exhausting the fuel corresponds to
  Python's `RecursionError` and is a distinguished outcome that the theorems
  below prove unreachable wherever the source terminates.
* Python's `hash` is an arbitrary function supplied as a parameter `hashFn`.
-/

inductive Err where
  | keyError
  | valueError
  | zeroDivisionError
  | fuelExhausted
  deriving DecidableEq, Repr

/-- Table state: the fields of a `MyHashTable` instance (source lines 40-52).
`collision_log` entries are the `(n_buckets, len, collisions)` named tuples. -/
structure Table (κ ν : Type) where
  bucket_increment : Int
  max_utilization_fraction : ℚ
  n_data : Int
  data : List (Option (κ × ν))
  auto_resize : Bool
  collision_log : List (Nat × Int × Nat)
  n_collisions : Nat
  deriving DecidableEq, Repr

variable {κ ν : Type} [DecidableEq κ] [DecidableEq ν]

/-- `self._data[i]` for an in-range index; out-of-range reads default to `none`
(they never occur along the probe, whose indices are reduced mod the length). -/
def bucketAt (data : List (Option (κ × ν))) (i : Nat) : Option (κ × ν) :=
  (data[i]?).getD none

/-- `MyHashTable.__init__` together with `_initialize_data` (source lines 27-52,
205-216): no argument validation whatsoever, all buckets empty, counters zero. -/
def mkTable (n_buckets : Nat) (auto_resize : Bool) (max_utilization_fraction : ℚ)
    (bucket_increment : Int) : Table κ ν :=
  { bucket_increment := bucket_increment
    max_utilization_fraction := max_utilization_fraction
    n_data := 0
    data := List.replicate n_buckets none
    auto_resize := auto_resize
    collision_log := []
    n_collisions := 0 }

/-- `self.utilization` (source lines 160-168): `len(self) / self.n_buckets`. -/
def utilization (t : Table κ ν) : ℚ :=
  (t.n_data : ℚ) / (t.data.length : ℚ)

/-- `self._log_collisions(n)` (source lines 218-234): append one record and add
`n` to the running total. -/
def logCollisions (t : Table κ ν) (n : Nat) : Table κ ν :=
  { t with collision_log := t.collision_log ++ [(t.data.length, t.n_data, n)]
           n_collisions := t.n_collisions + n }

/-- The `while True` probe loop of `_key_to_bucket` (source lines 185-201).
`len` is `len(self)` (that is `n_data`), the probe bound.  The `fuel` argument
makes the recursion structural; `key_to_bucket` supplies `len.toNat + 2`, which
is proved sufficient (`probeLoop_path`, `probeLoop_sound`), so the
`fuelExhausted` branch is unreachable from the table operations. -/
def probeLoop (data : List (Option (κ × ν))) (len : Int) (k : κ) :
    Nat → Nat → Nat → Except Err (Nat × Nat)
  | 0, _, _ => .error .fuelExhausted
  | fuel + 1, i, nColl =>
    match bucketAt data i with
    | none => .ok (i, nColl)
    | some r =>
      if r.1 = k then .ok (i, nColl)
      else if ((nColl + 1 : Nat) : Int) > len then .error .keyError
      else probeLoop data len k fuel ((i + 1) % data.length) (nColl + 1)

/-- `self._key_to_bucket(key)` (source lines 170-203).  Returns the resolved
index, the collision count, and the table with the collision logged; raises
`KeyError` when the probe bound is exceeded.  `hash(key) % self.n_buckets`
with zero buckets raises `ZeroDivisionError` in Python. -/
def key_to_bucket (hashFn : κ → Nat) (t : Table κ ν) (k : κ) :
    Except Err (Nat × Nat × Table κ ν) :=
  if t.data.length = 0 then .error .zeroDivisionError
  else
    match probeLoop t.data t.n_data k (t.n_data.toNat + 2)
        (hashFn k % t.data.length) 0 with
    | .error e => .error e
    | .ok (i, c) => .ok (i, c, logCollisions t c)

/-- `self.__getitem__(key)` (source lines 90-98): resolve, then read the bucket;
an empty bucket means the key is absent (`KeyError`). -/
def getitem (hashFn : κ → Nat) (t : Table κ ν) (k : κ) :
    Except (Err × Table κ ν) (ν × Table κ ν) :=
  match key_to_bucket hashFn t k with
  | .error e => .error (e, t)
  | .ok (i, _c, t1) =>
    match bucketAt t1.data i with
    | none => .error (.keyError, t1)
    | some r => .ok (r.2, t1)

/-- The value returned by `__getitem__`, discarding the collision-log side
effect. -/
def getVal (hashFn : κ → Nat) (t : Table κ ν) (k : κ) : Except Err ν :=
  match getitem hashFn t k with
  | .error (e, _) => .error e
  | .ok (v, _) => .ok v

/-- `self.__delitem__(key)` (source lines 100-106): resolve, clear the bucket,
decrement `n_data` — with no check that the resolved bucket actually held the
key. -/
def delitem (hashFn : κ → Nat) (t : Table κ ν) (k : κ) :
    Except (Err × Table κ ν) (Table κ ν) :=
  match key_to_bucket hashFn t k with
  | .error e => .error (e, t)
  | .ok (i, _c, t1) =>
    .ok { t1 with data := t1.data.set i none, n_data := t1.n_data - 1 }

/-- `self._initialize_data(n_buckets)` as called from `_resize_data` (source
lines 205-216, 254-255): reset `n_data` and replace the backing store. -/
def resetData (t : Table κ ν) (n : Nat) : Table κ ν :=
  { t with n_data := 0, data := List.replicate n none }

/-- The snapshot `deque((record.key, record.value) for record in self._data if
record is not None)` of `_resize_data` (source line 252), in slot order. -/
def snapshot (data : List (Option (κ × ν))) : List (κ × ν) :=
  data.reduceOption

/-- Requests interpreted by `exec`: `__setitem__`, `_resize_data`, and the
re-insertion loop inside `_resize_data`. -/
inductive Req (κ ν : Type) where
  | set (t : Table κ ν) (k : κ) (v : ν)
  | resize (t : Table κ ν) (m : Int)
  | reinsert (t : Table κ ν) (ps : List (κ × ν))

/-- The table a request operates on (used only to give the unreachable
out-of-fuel branch a state to report). -/
def Req.state : Req κ ν → Table κ ν
  | .set t _ _ => t
  | .resize t _ => t
  | .reinsert t _ => t

/-- `__setitem__` (source lines 54-88), `_resize_data` (source lines 236-259)
and its re-insertion loop (source lines 257-258), combined into one
fuel-indexed interpreter because in the source they are mutually recursive:
`_resize_data` re-inserts via full `self[k] = v`, auto-resize trigger included.
Key points preserved from the source:
* a probe `KeyError` in `__setitem__` becomes `ValueError` ("HashTable is full");
* `n_data` is incremented only if the resolved bucket was empty (`data_added`);
* the auto-resize check `self._auto_resize and (self.utilization >
  self._max_utilization_fraction)` runs after every set, overwrite included;
* `_resize_data` raises `ValueError` before touching anything when
  `n_buckets < len(self)`. -/
def exec (hashFn : κ → Nat) : Nat → Req κ ν → Except (Err × Table κ ν) (Table κ ν)
  | 0, r => .error (.fuelExhausted, r.state)
  | fuel + 1, .set t k v =>
    match key_to_bucket hashFn t k with
    | .error .keyError => .error (.valueError, t)
    | .error e => .error (e, t)
    | .ok (i, _c, t1) =>
      let added : Bool := bucketAt t1.data i = none
      let t2 := { t1 with data := t1.data.set i (some (k, v)) }
      let t3 := if added then { t2 with n_data := t2.n_data + 1 } else t2
      if t3.auto_resize = true ∧ utilization t3 > t3.max_utilization_fraction then
        exec hashFn fuel (.resize t3 ((t3.data.length : Int) + t3.bucket_increment))
      else .ok t3
  | fuel + 1, .resize t m =>
    if m < t.n_data then .error (.valueError, t)
    else exec hashFn fuel (.reinsert (resetData t m.toNat) (snapshot t.data))
  | _fuel + 1, .reinsert t [] => .ok t
  | fuel + 1, .reinsert t ((k, v) :: ps) =>
    match exec hashFn fuel (.set t k v) with
    | .error e => .error e
    | .ok t1 => exec hashFn fuel (.reinsert t1 ps)

/-- `self[key] = value`. -/
def setitem (hashFn : κ → Nat) (fuel : Nat) (t : Table κ ν) (k : κ) (v : ν) :
    Except (Err × Table κ ν) (Table κ ν) :=
  exec hashFn fuel (.set t k v)

/-- `self._resize_data(n_buckets)`. -/
def resize (hashFn : κ → Nat) (fuel : Nat) (t : Table κ ν) (m : Int) :
    Except (Err × Table κ ν) (Table κ ν) :=
  exec hashFn fuel (.resize t m)

/-- The table state carried by an operation result: the new state on success,
the state at the moment the exception propagated on failure. -/
def outState (e : Except (Err × Table κ ν) (Table κ ν)) : Table κ ν :=
  match e with
  | .ok t => t
  | .error (_, t) => t

/-- Number of occupied buckets, as the cardinality of the set of occupied
indices. -/
def occCount (data : List (Option (κ × ν))) : Nat :=
  ((Finset.range data.length).filter fun b => (bucketAt data b).isSome).card

/-- Key `k` occupies some bucket. -/
def keyStored (data : List (Option (κ × ν))) (k : κ) : Prop :=
  ∃ i < data.length, (bucketAt data i).map Prod.fst = some k

instance (data : List (Option (κ × ν))) (k : κ) : Decidable (keyStored data k) := by
  unfold keyStored; infer_instance

/-- The keys of the occupied buckets, listed in slot order, contain no
duplicate. -/
def storedKeysNodup (data : List (Option (κ × ν))) : Prop :=
  ((data.reduceOption).map Prod.fst).Nodup

instance (data : List (Option (κ × ν))) : Decidable (storedKeysNodup data) := by
  unfold storedKeysNodup; infer_instance

/-- The probe stops at bucket `b`: it is empty or holds key `k`. -/
def slotStops (data : List (Option (κ × ν))) (k : κ) (b : Nat) : Bool :=
  match bucketAt data b with
  | none => true
  | some r => decide (r.1 = k)

/-- Bucket `b` is a collision for key `k`: occupied by a different key. -/
def slotBlocks (data : List (Option (κ × ν))) (k : κ) (b : Nat) : Bool :=
  match bucketAt data b with
  | none => false
  | some r => decide (r.1 ≠ k)

/-- The body of the spec's probe-reachability invariant at one bucket: if the
bucket holds a pair, its key's probe start reaches this bucket by `+1` steps
within `n_data` steps without crossing an empty bucket.  (The extra bound
`j ≤ n_data.toNat` is implied by `(j : Int) ≤ n_data` and makes the statement
decidable.) -/
def reachOK (hashFn : κ → Nat) (t : Table κ ν) (b : Nat) : Prop :=
  match bucketAt t.data b with
  | none => True
  | some p => ∃ j ≤ t.n_data.toNat, (j : Int) ≤ t.n_data ∧
      (hashFn p.1 % t.data.length + j) % t.data.length = b ∧
      ∀ j' < j, bucketAt t.data ((hashFn p.1 % t.data.length + j') % t.data.length) ≠ none

instance (hashFn : κ → Nat) (t : Table κ ν) (b : Nat) : Decidable (reachOK hashFn t b) := by
  unfold reachOK
  cases bucketAt t.data b with
  | none => exact isTrue trivial
  | some p => infer_instance

/-- The spec's probe-reachability invariant (§3), over every occupied bucket. -/
def probeReachable (hashFn : κ → Nat) (t : Table κ ν) : Prop :=
  ∀ b < t.data.length, reachOK hashFn t b

instance (hashFn : κ → Nat) (t : Table κ ν) : Decidable (probeReachable hashFn t) := by
  unfold probeReachable
  infer_instance

/-- Identity hash on naturals, used to instantiate the claims' concrete
scenarios (`hash(n) == n` for small non-negative `int` in CPython). -/
def hashId : Nat → Nat := fun n => n

/-! ### Concrete scenarios built by running the table operations -/

/-- Fresh 4-bucket table (`auto_resize` off), then `set 0 ↦ 10` and
`set 4 ↦ 20`; keys 0 and 4 share hash bucket 0, so key 4 lands in bucket 1. -/
def c2Before : Table Nat Nat :=
  outState (exec hashId 5 (.set (outState (exec hashId 5
    (.set (mkTable 4 false (1/2) 1) 0 10))) 4 20))

/-- The same table after `delete 0`. -/
def c2After : Table Nat Nat := outState (delitem hashId c2Before 0)

/-- Fresh 2-bucket table (`auto_resize` off) holding `0 ↦ 10`. -/
def c4Mid : Table Nat Nat :=
  outState (exec hashId 5 (.set (mkTable 2 false (1/2) 1) 0 10))

/-- The same table after deleting the absent key 1. -/
def c4After : Table Nat Nat := outState (delitem hashId c4Mid 1)

/-- Fresh 8-bucket table, `auto_resize` on, threshold 1/2, increment 100,
holding `0 ↦ 10`, `1 ↦ 20`, `2 ↦ 30` (utilization 3/8, no trigger yet). -/
def c3Start : Table Nat Nat :=
  outState (exec hashId 9 (.set (outState (exec hashId 9 (.set (outState
    (exec hashId 9 (.set (mkTable 8 true (1/2) 100) 0 10))) 1 20))) 2 30))

/-- Fresh 2-bucket table (`auto_resize` off): `set 0 ↦ 10`, `set 2 ↦ 20`
(collision, lands in bucket 1), `delete 0`, `set 2 ↦ 30` (probe finds bucket 0
empty and inserts a second copy of key 2 there). -/
def c6Pre : Table Nat Nat :=
  outState (exec hashId 9 (.set (outState (delitem hashId (outState (exec hashId 9
    (.set (outState (exec hashId 9 (.set (mkTable 2 false (1/2) 1) 0 10))) 2 20))) 0)) 2 30))

/-- Fresh 4-bucket table, `auto_resize` on, threshold 3/4, increment 4: after
`set 4 ↦ 10`, `set 8 ↦ 20` (collision, bucket 1), `set 2 ↦ 30`, `delete 4`,
`set 3 ↦ 40`.  Bucket 0 is empty while a stale copy of key 8 sits in
bucket 1. -/
def c9State : Table Nat Nat :=
  outState (exec hashId 9 (.set (outState (delitem hashId (outState (exec hashId 9
    (.set (outState (exec hashId 9 (.set (outState (exec hashId 9
      (.set (mkTable 4 true (3/4) 4) 4 10))) 8 20))) 2 30))) 4)) 3 40))

/-- Fresh 4-bucket table (`auto_resize` off): `set 1 ↦ 10`, `set 2 ↦ 20`,
then `delete 0` (absent; resolves to the empty bucket 0 and decrements
`n_data` to 1 while two buckets stay occupied). -/
def c8State : Table Nat Nat :=
  outState (delitem hashId (outState (exec hashId 9 (.set (outState (exec hashId 9
    (.set (mkTable 4 false (1/2) 1) 1 10))) 2 20))) 0)

/-- Fresh 2-bucket table, `auto_resize` on, threshold 1/2, increment -1:
`set 0 ↦ 10` succeeds; `set 1 ↦ 20` fills the table and then triggers an
auto-resize to 2 + (-1) = 1 buckets, which raises `ValueError` — leaving the
caller a completely full table. -/
def c10Full : Table Nat Nat :=
  outState (exec hashId 9 (.set (outState (exec hashId 9
    (.set (mkTable 2 true (1/2) (-1)) 0 10))) 1 20))

/-- A completely full two-bucket table with distinct keys and `auto_resize`
off, for the amended full-table theorem's witness. -/
def c10Wit : Table Nat Nat :=
  ⟨1, 1/2, 2, [some (0, 5), some (1, 6)], false, [], 0⟩

/-! ### Basic facts about the state-record operations -/

@[simp] lemma logCollisions_data (t : Table κ ν) (n : Nat) :
    (logCollisions t n).data = t.data := rfl

@[simp] lemma logCollisions_n_data (t : Table κ ν) (n : Nat) :
    (logCollisions t n).n_data = t.n_data := rfl

@[simp] lemma logCollisions_auto (t : Table κ ν) (n : Nat) :
    (logCollisions t n).auto_resize = t.auto_resize := rfl

@[simp] lemma logCollisions_max (t : Table κ ν) (n : Nat) :
    (logCollisions t n).max_utilization_fraction = t.max_utilization_fraction := rfl

@[simp] lemma logCollisions_inc (t : Table κ ν) (n : Nat) :
    (logCollisions t n).bucket_increment = t.bucket_increment := rfl

lemma bucketAt_set_self (data : List (Option (κ × ν))) (i : Nat) (x : Option (κ × ν))
    (h : i < data.length) : bucketAt (data.set i x) i = x := by
  unfold bucketAt
  rw [List.getElem?_set_self (by simpa using h)]
  rfl

lemma bucketAt_set_ne (data : List (Option (κ × ν))) (i j : Nat) (x : Option (κ × ν))
    (h : i ≠ j) : bucketAt (data.set i x) j = bucketAt data j := by
  unfold bucketAt
  rw [List.getElem?_set_ne h]

/-! ### The probe path: stopping and blocking slots -/

lemma slotBlocks_of_not_stops {data : List (Option (κ × ν))} {k : κ} {b : Nat}
    (h : slotStops data k b = false) : slotBlocks data k b = true := by
  unfold slotStops at h
  unfold slotBlocks
  cases hb : bucketAt data b with
  | none => rw [hb] at h; simp at h
  | some r => rw [hb] at h; simp_all

lemma not_blocks_and_stops {data : List (Option (κ × ν))} {k : κ} {b : Nat} :
    ¬(slotBlocks data k b = true ∧ slotStops data k b = true) := by
  unfold slotStops slotBlocks
  cases hb : bucketAt data b <;> simp

lemma slotBlocks_isSome {data : List (Option (κ × ν))} {k : κ} {b : Nat}
    (h : slotBlocks data k b = true) : (bucketAt data b).isSome := by
  unfold slotBlocks at h
  cases hb : bucketAt data b <;> rw [hb] at h <;> simp_all

lemma slotStops_congr {data data2 : List (Option (κ × ν))} {k : κ} {b : Nat}
    (h : bucketAt data2 b = bucketAt data b) :
    slotStops data2 k b = slotStops data k b := by
  unfold slotStops; rw [h]

lemma slotBlocks_congr {data data2 : List (Option (κ × ν))} {k : κ} {b : Nat}
    (h : bucketAt data2 b = bucketAt data b) :
    slotBlocks data2 k b = slotBlocks data k b := by
  unfold slotBlocks; rw [h]

lemma mod_add_inj {n s a b : Nat} (ha : a < n) (hb : b < n)
    (h : (s + a) % n = (s + b) % n) : a = b := by
  have h2 : a ≡ b [MOD n] := Nat.ModEq.add_left_cancel' s h
  have h3 : a % n = b % n := h2
  rwa [Nat.mod_eq_of_lt ha, Nat.mod_eq_of_lt hb] at h3

/-! ### The probe loop follows the first stopping slot -/

/-- If the slots at offsets `0, …, j-1` from `i` all collide and the slot at
offset `j` stops the probe, the loop returns that slot with `j` further
collisions, provided the count stays within the bound.  The fuel equation is
the invariant maintained from `key_to_bucket`'s initial supply. -/
lemma probeLoop_path (data : List (Option (κ × ν))) (len : Int) (k : κ) :
    ∀ (j i c fuel : Nat), i < data.length →
      (∀ j' < j, slotBlocks data k ((i + j') % data.length) = true) →
      slotStops data k ((i + j) % data.length) = true →
      (∀ j', 1 ≤ j' → j' ≤ j → ((c + j' : Nat) : Int) ≤ len) →
      c + fuel = len.toNat + 2 → c ≤ len.toNat + 1 →
      probeLoop data len k fuel i c = .ok ((i + j) % data.length, c + j) := by
  intro j
  induction j with
  | zero =>
    intro i c fuel hi _hblk hstop _hb hfuel hc
    obtain ⟨f, rfl⟩ : ∃ f, fuel = f + 1 := ⟨fuel - 1, by omega⟩
    simp only [Nat.add_zero] at hstop ⊢
    rw [Nat.mod_eq_of_lt hi] at hstop
    rw [Nat.mod_eq_of_lt hi]
    unfold slotStops at hstop
    unfold probeLoop
    cases hb : bucketAt data i with
    | none => simp
    | some r =>
      rw [hb] at hstop
      simp only [decide_eq_true_eq] at hstop
      simp [hstop]
  | succ j ih =>
    intro i c fuel hi hblk hstop hb hfuel hc
    have hn : 0 < data.length := by omega
    have hc1 : ((c + 1 : Nat) : Int) ≤ len := hb 1 (by omega) (by omega)
    have hc1n : c + 1 ≤ len.toNat := by omega
    obtain ⟨f, rfl⟩ : ∃ f, fuel = f + 1 := ⟨fuel - 1, by omega⟩
    have hblk0 : slotBlocks data k i = true := by
      have h0 := hblk 0 (by omega)
      rwa [Nat.add_zero, Nat.mod_eq_of_lt hi] at h0
    unfold slotBlocks at hblk0
    unfold probeLoop
    cases hbk : bucketAt data i with
    | none => rw [hbk] at hblk0; simp at hblk0
    | some r =>
      rw [hbk] at hblk0
      simp only [decide_eq_true_eq] at hblk0
      have hne : ¬ r.1 = k := hblk0
      simp only [hne, if_false]
      have hshift : ∀ m : Nat, ((i + 1) % data.length + m) % data.length =
          (i + (m + 1)) % data.length := by
        intro m
        rw [Nat.mod_add_mod]
        congr 1
        omega
      have hrec := ih ((i + 1) % data.length) (c + 1) f (Nat.mod_lt _ hn)
        (fun j' hj' => by rw [hshift j']; exact hblk (j' + 1) (by omega))
        (by rw [hshift j]; exact hstop)
        (fun j' h1 h2 => by
          have := hb (j' + 1) (by omega) (by omega)
          omega)
        (by omega) (by omega)
      split
      · next hcond => exfalso; omega
      · next hcond =>
        rw [hrec, hshift j]
        congr 2
        omega

/-- Soundness: a successful probe returns the first stopping slot along the
linear path from the start index, with the collision count within the bound. -/
lemma probeLoop_sound (data : List (Option (κ × ν))) (len : Int) (k : κ) :
    ∀ (fuel i c b c2 : Nat), i < data.length →
      probeLoop data len k fuel i c = .ok (b, c2) →
      ∃ j, c2 = c + j ∧ b = (i + j) % data.length ∧
        slotStops data k b = true ∧
        (∀ j' < j, slotBlocks data k ((i + j') % data.length) = true) ∧
        (j = 0 ∨ ((c + j : Nat) : Int) ≤ len) := by
  intro fuel
  induction fuel with
  | zero => intro i c b c2 _hi h; simp [probeLoop] at h
  | succ f ih =>
    intro i c b c2 hi h
    have hn : 0 < data.length := by omega
    unfold probeLoop at h
    cases hbk : bucketAt data i with
    | none =>
      rw [hbk] at h
      simp only [Except.ok.injEq, Prod.mk.injEq] at h
      refine ⟨0, by omega, ?_, ?_, by omega, Or.inl rfl⟩
      · rw [Nat.add_zero, Nat.mod_eq_of_lt hi]; omega
      · unfold slotStops; rw [← h.1, hbk]
    | some r =>
      rw [hbk] at h
      by_cases hk : r.1 = k
      · simp only [hk, if_true, Except.ok.injEq, Prod.mk.injEq] at h
        refine ⟨0, by omega, ?_, ?_, by omega, Or.inl rfl⟩
        · rw [Nat.add_zero, Nat.mod_eq_of_lt hi]; omega
        · unfold slotStops; rw [← h.1, hbk]; simp [hk]
      · simp only [hk, if_false] at h
        split at h
        · simp at h
        · rename_i hbd
          obtain ⟨j, hj1, hj2, hj3, hj4, hj5⟩ :=
            ih ((i + 1) % data.length) (c + 1) b c2 (Nat.mod_lt _ hn) h
          have hshift : ∀ m : Nat, ((i + 1) % data.length + m) % data.length =
              (i + (m + 1)) % data.length := by
            intro m
            rw [Nat.mod_add_mod]
            congr 1
            omega
          refine ⟨j + 1, by omega, by rw [hj2, hshift j], hj3, ?_, ?_⟩
          · intro j' hj'
            cases j' with
            | zero =>
              rw [Nat.add_zero, Nat.mod_eq_of_lt hi]
              unfold slotBlocks
              rw [hbk]
              simp [hk]
            | succ j'' =>
              rw [← hshift j'']
              exact hj4 j'' (by omega)
          · rcases hj5 with h0 | hle
            · right
              subst h0
              omega
            · right
              omega

/-- When every bucket collides (a full table probed for an absent key), the
loop exhausts its bound and raises `KeyError`. -/
lemma probeLoop_blocked_err (data : List (Option (κ × ν))) (len : Int) (k : κ) :
    ∀ (fuel i c : Nat), i < data.length →
      (∀ b < data.length, slotBlocks data k b = true) →
      c + fuel = len.toNat + 2 → c ≤ len.toNat + 1 →
      probeLoop data len k fuel i c = .error .keyError := by
  intro fuel
  induction fuel with
  | zero => intro i c _hi _hb hfuel hc; omega
  | succ f ih =>
    intro i c hi hball hfuel hc
    have hn : 0 < data.length := by omega
    have hblk := hball i hi
    unfold slotBlocks at hblk
    unfold probeLoop
    cases hbk : bucketAt data i with
    | none => rw [hbk] at hblk; simp at hblk
    | some r =>
      rw [hbk] at hblk
      simp only [decide_eq_true_eq] at hblk
      simp only [hblk, if_false]
      split
      · rfl
      · rename_i hbd
        exact ih ((i + 1) % data.length) (c + 1) (Nat.mod_lt _ hn) hball (by omega) (by omega)

/-! ### Occupancy counting and resolution of `_key_to_bucket` -/

lemma occCount_lt_exists_empty (data : List (Option (κ × ν)))
    (h : occCount data < data.length) :
    ∃ b < data.length, bucketAt data b = none := by
  by_contra hc
  push_neg at hc
  have hall : ((Finset.range data.length).filter fun b => (bucketAt data b).isSome) =
      Finset.range data.length := by
    apply Finset.filter_true_of_mem
    intro b hb
    rw [Finset.mem_range] at hb
    rcases hx : bucketAt data b with _ | r
    · exact absurd hx (hc b hb)
    · simp
  unfold occCount at h
  rw [hall, Finset.card_range] at h
  omega

lemma exists_stop (data : List (Option (κ × ν))) (k : κ) (s : Nat)
    (hs : s < data.length) (h : occCount data < data.length) :
    ∃ j, slotStops data k ((s + j) % data.length) = true ∧ j < data.length := by
  obtain ⟨b, hb, hbe⟩ := occCount_lt_exists_empty data h
  refine ⟨(b + data.length - s) % data.length, ?_, Nat.mod_lt _ (by omega)⟩
  have h1 : (s + (b + data.length - s) % data.length) % data.length = b := by
    rw [Nat.add_mod_mod]
    have h2 : s + (b + data.length - s) = b + data.length := by omega
    rw [h2, Nat.add_mod_right, Nat.mod_eq_of_lt hb]
  rw [h1]
  unfold slotStops
  rw [hbe]

/-- The probe path from any start consists of at most `occCount` collisions
before the first empty-or-matching slot: the collision positions are distinct
occupied buckets. -/
lemma probe_first_stop (data : List (Option (κ × ν))) (k : κ) (s : Nat)
    (hs : s < data.length) (hocc : occCount data < data.length) :
    ∃ j, j ≤ occCount data ∧ j < data.length ∧
      slotStops data k ((s + j) % data.length) = true ∧
      ∀ j' < j, slotBlocks data k ((s + j') % data.length) = true := by
  obtain ⟨j0, hj0, hj0lt⟩ := exists_stop data k s hs hocc
  have hP : ∃ j, slotStops data k ((s + j) % data.length) = true := ⟨j0, hj0⟩
  have hjf : slotStops data k ((s + Nat.find hP) % data.length) = true := Nat.find_spec hP
  have hjlt : Nat.find hP < data.length := lt_of_le_of_lt (Nat.find_min' hP hj0) hj0lt
  have hblk : ∀ j' < Nat.find hP, slotBlocks data k ((s + j') % data.length) = true := by
    intro j' hj'
    have hnot := Nat.find_min hP hj'
    exact slotBlocks_of_not_stops (by simpa using hnot)
  refine ⟨Nat.find hP, ?_, hjlt, hjf, hblk⟩
  have hinj : Set.InjOn (fun j => (s + j) % data.length) (Finset.range (Nat.find hP)) := by
    intro a ha b hb hab
    simp only [Finset.coe_range, Set.mem_Iio] at ha hb
    exact mod_add_inj (by omega) (by omega) hab
  have hsub : (Finset.range (Nat.find hP)).image (fun j => (s + j) % data.length) ⊆
      (Finset.range data.length).filter fun b => (bucketAt data b).isSome := by
    intro x hx
    rw [Finset.mem_image] at hx
    obtain ⟨j', hj', rfl⟩ := hx
    rw [Finset.mem_range] at hj'
    rw [Finset.mem_filter, Finset.mem_range]
    exact ⟨Nat.mod_lt _ (by omega), slotBlocks_isSome (hblk j' hj')⟩
  have hcard := Finset.card_le_card hsub
  rw [Finset.card_image_of_injOn hinj, Finset.card_range] at hcard
  exact hcard

/-- The probe succeeds whenever the table has an empty bucket and `n_data`
dominates the occupancy: resolution lands on the first empty-or-matching slot
with at most `occCount` collisions, never reaching the `KeyError` branch. -/
lemma key_to_bucket_ok (hashFn : κ → Nat) (t : Table κ ν) (k : κ)
    (hocc : occCount t.data < t.data.length)
    (hlen : (occCount t.data : Int) ≤ t.n_data) :
    ∃ c, key_to_bucket hashFn t k =
        .ok ((hashFn k % t.data.length + c) % t.data.length, c, logCollisions t c) ∧
      c ≤ occCount t.data ∧ c < t.data.length ∧
      slotStops t.data k ((hashFn k % t.data.length + c) % t.data.length) = true ∧
      ∀ j' < c, slotBlocks t.data k ((hashFn k % t.data.length + j') % t.data.length) = true := by
  have hn : 0 < t.data.length := by omega
  have hs : hashFn k % t.data.length < t.data.length := Nat.mod_lt _ hn
  obtain ⟨j, hj1, hj2, hj3, hj4⟩ :=
    probe_first_stop t.data k (hashFn k % t.data.length) hs hocc
  have hpath := probeLoop_path t.data t.n_data k j (hashFn k % t.data.length) 0
    (t.n_data.toNat + 2) hs hj4 hj3
    (fun j' h1 h2 => by
      have hjo : j' ≤ occCount t.data := le_trans h2 hj1
      omega)
    (by omega) (by omega)
  simp only [Nat.zero_add] at hpath
  refine ⟨j, ?_, hj1, hj2, hj3, hj4⟩
  unfold key_to_bucket
  rw [if_neg (by omega), hpath]

/-- Soundness of `_key_to_bucket`: a successful resolution returns the first
empty-or-matching slot on the probe path from `hash(key) % n_buckets`, with
the collision count within the probe bound and below the bucket count, and the
collision logged. -/
lemma key_to_bucket_sound (hashFn : κ → Nat) (t : Table κ ν) (k : κ)
    (i c : Nat) (t1 : Table κ ν)
    (h : key_to_bucket hashFn t k = .ok (i, c, t1)) :
    t1 = logCollisions t c ∧ 0 < t.data.length ∧
    i = (hashFn k % t.data.length + c) % t.data.length ∧
    slotStops t.data k i = true ∧
    (∀ j' < c, slotBlocks t.data k ((hashFn k % t.data.length + j') % t.data.length) = true) ∧
    (c = 0 ∨ (c : Int) ≤ t.n_data) ∧ c < t.data.length := by
  unfold key_to_bucket at h
  by_cases h0 : t.data.length = 0
  · rw [if_pos h0] at h
    simp at h
  · rw [if_neg h0] at h
    have hn : 0 < t.data.length := by omega
    have hs : hashFn k % t.data.length < t.data.length := Nat.mod_lt _ hn
    cases hp : probeLoop t.data t.n_data k (t.n_data.toNat + 2) (hashFn k % t.data.length) 0 with
    | error e => rw [hp] at h; simp at h
    | ok pr =>
      rw [hp] at h
      obtain ⟨b, c0⟩ := pr
      simp only [Except.ok.injEq, Prod.mk.injEq] at h
      obtain ⟨hbi, hc0, ht1⟩ := h
      obtain ⟨j, hj1, hj2, hj3, hj4, hj5⟩ :=
        probeLoop_sound t.data t.n_data k _ _ _ _ _ hs hp
      have hjc : c = j := by omega
      have hcn : j < t.data.length := by
        by_contra hge
        push_neg at hge
        have hpos : (hashFn k % t.data.length + (j - t.data.length)) % t.data.length =
            (hashFn k % t.data.length + j) % t.data.length := by
          have he : hashFn k % t.data.length + j =
              (hashFn k % t.data.length + (j - t.data.length)) + t.data.length := by omega
          rw [he, Nat.add_mod_right]
        have hb2 := hj4 (j - t.data.length) (by omega)
        rw [hpos, ← hj2] at hb2
        exact not_blocks_and_stops ⟨hb2, hj3⟩
      refine ⟨by rw [← ht1, hc0], hn, by rw [← hbi, hj2, hjc], by rwa [hbi] at hj3,
        ?_, ?_, by omega⟩
      · intro j' hj'
        exact hj4 j' (by omega)
      · rcases hj5 with hl | hr
        · exact Or.inl (by omega)
        · right
          rw [hjc]
          simpa using hr

/-! ### Counting occupied buckets -/

lemma bucketAt_cons_zero (x : Option (κ × ν)) (xs : List (Option (κ × ν))) :
    bucketAt (x :: xs) 0 = x := by
  unfold bucketAt
  rw [List.getElem?_cons_zero]
  rfl

lemma bucketAt_cons_succ (x : Option (κ × ν)) (xs : List (Option (κ × ν))) (i : Nat) :
    bucketAt (x :: xs) (i + 1) = bucketAt xs i := by
  unfold bucketAt
  rw [List.getElem?_cons_succ]

lemma bucketAt_replicate_none (n i : Nat) :
    bucketAt (List.replicate n (none : Option (κ × ν))) i = none := by
  unfold bucketAt
  rw [List.getElem?_replicate]
  split <;> rfl
lemma occCount_cons (x : Option (κ × ν)) (xs : List (Option (κ × ν))) :
    occCount (x :: xs) = (if x.isSome then 1 else 0) + occCount xs := by
  unfold occCount
  rw [Finset.card_filter, Finset.card_filter]
  rw [List.length_cons, Finset.sum_range_succ']
  simp only [bucketAt_cons_succ, bucketAt_cons_zero]
  omega

lemma occCount_replicate_none (n : Nat) :
    occCount (List.replicate n (none : Option (κ × ν))) = 0 := by
  unfold occCount
  rw [Finset.card_eq_zero, Finset.filter_eq_empty_iff]
  intro b _hb
  rw [bucketAt_replicate_none]
  simp

lemma reduceOption_length_eq_occCount (data : List (Option (κ × ν))) :
    data.reduceOption.length = occCount data := by
  induction data with
  | nil => rfl
  | cons x xs ih =>
    rw [occCount_cons]
    cases x with
    | none =>
      rw [List.reduceOption_cons_of_none]
      simpa using ih
    | some p =>
      rw [List.reduceOption_cons_of_some, List.length_cons]
      simp only [Option.isSome_some, if_true]
      omega

lemma occCount_set_some (data : List (Option (κ × ν))) (i : Nat) (p : κ × ν)
    (hi : i < data.length) (he : bucketAt data i = none) :
    occCount (data.set i (some p)) = occCount data + 1 := by
  unfold occCount
  rw [List.length_set]
  have hset : ((Finset.range data.length).filter
      fun b => (bucketAt (data.set i (some p)) b).isSome) =
      insert i ((Finset.range data.length).filter fun b => (bucketAt data b).isSome) := by
    ext b
    simp only [Finset.mem_filter, Finset.mem_range, Finset.mem_insert]
    constructor
    · rintro ⟨hb, hsome⟩
      by_cases hbi : b = i
      · exact Or.inl hbi
      · right
        refine ⟨hb, ?_⟩
        rwa [bucketAt_set_ne data i b _ (fun hh => hbi hh.symm)] at hsome
    · rintro (rfl | ⟨hb, hsome⟩)
      · refine ⟨hi, ?_⟩
        rw [bucketAt_set_self data b _ hi]
        rfl
      · by_cases hbi : b = i
        · subst hbi
          rw [he] at hsome
          simp at hsome
        · refine ⟨hb, ?_⟩
          rwa [bucketAt_set_ne data i b _ (fun hh => hbi hh.symm)]
  rw [hset, Finset.card_insert_of_not_mem]
  simp only [Finset.mem_filter, Finset.mem_range, not_and]
  intro _hib
  rw [he]
  simp

/-! ### Stored keys -/

lemma mem_reduceOption_of_bucketAt {data : List (Option (κ × ν))} {i : Nat} {p : κ × ν}
    (h : bucketAt data i = some p) : p ∈ data.reduceOption := by
  rw [List.reduceOption_mem_iff]
  unfold bucketAt at h
  cases hg : data[i]? with
  | none => rw [hg] at h; simp at h
  | some o =>
    rw [hg] at h
    simp only [Option.getD_some] at h
    subst h
    exact List.getElem?_mem hg

lemma keyStored_of_mem_reduceOption {data : List (Option (κ × ν))} {p : κ × ν}
    (h : p ∈ data.reduceOption) : keyStored data p.1 := by
  rw [List.reduceOption_mem_iff] at h
  obtain ⟨i, hg⟩ := List.getElem?_of_mem h
  have hi : i < data.length := by
    rcases List.getElem?_eq_some.mp hg with ⟨hlt, _⟩
    exact hlt
  exact ⟨i, hi, by unfold bucketAt; rw [hg]; rfl⟩

lemma keyStored_replicate_false (n : Nat) (k : κ) :
    ¬ keyStored (List.replicate n (none : Option (κ × ν))) k := by
  rintro ⟨i, _hi, hmap⟩
  rw [bucketAt_replicate_none] at hmap
  simp at hmap

lemma keyStored_set_some (data : List (Option (κ × ν))) (i : Nat) (k : κ) (v : ν)
    (hi : i < data.length) (he : bucketAt data i = none) (q : κ) :
    keyStored (data.set i (some (k, v))) q ↔ (keyStored data q ∨ q = k) := by
  constructor
  · rintro ⟨j, hj, hmap⟩
    rw [List.length_set] at hj
    by_cases hij : i = j
    · subst hij
      rw [bucketAt_set_self data i _ hi] at hmap
      right
      simpa using hmap.symm
    · left
      rw [bucketAt_set_ne data i j _ hij] at hmap
      exact ⟨j, hj, hmap⟩
  · rintro (⟨j, hj, hmap⟩ | rfl)
    · have hij : i ≠ j := by
        intro hh
        subst hh
        rw [he] at hmap
        simp at hmap
      exact ⟨j, by rwa [List.length_set], by rwa [bucketAt_set_ne data i j _ hij]⟩
    · exact ⟨i, by rwa [List.length_set], by rw [bucketAt_set_self data i _ hi]; rfl⟩

/-! ### Reading after writing -/

/-- A successful `__getitem__` through a resolved bucket that holds `(k, v)`. -/
lemma getVal_of_probe (hashFn : κ → Nat) (t : Table κ ν) (k : κ) (v : ν) (i c : Nat)
    (t1 : Table κ ν)
    (h : key_to_bucket hashFn t k = .ok (i, c, t1))
    (hb : bucketAt t1.data i = some (k, v)) :
    getVal hashFn t k = .ok v := by
  unfold getVal getitem
  rw [h]
  simp only [hb]

/-- After writing `(k, v)` at the bucket the probe for `k` resolved to, probing
for `k` again resolves to the same bucket with the same collision count. -/
lemma probe_after_write (hashFn : κ → Nat) (t t2 : Table κ ν) (k : κ) (v : ν)
    (i c : Nat) (t1 : Table κ ν)
    (h : key_to_bucket hashFn t k = .ok (i, c, t1))
    (hd : t2.data = t.data.set i (some (k, v)))
    (hnd : t.n_data ≤ t2.n_data) :
    key_to_bucket hashFn t2 k = .ok (i, c, logCollisions t2 c) ∧
    bucketAt t2.data i = some (k, v) := by
  obtain ⟨ht1, hpos, hi, hstop, hblk, hbound, hcn⟩ := key_to_bucket_sound hashFn t k i c t1 h
  have hlen2 : t2.data.length = t.data.length := by rw [hd, List.length_set]
  have hilt : i < t.data.length := by rw [hi]; exact Nat.mod_lt _ hpos
  have hbat : bucketAt t2.data i = some (k, v) := by
    rw [hd]; exact bucketAt_set_self _ _ _ hilt
  refine ⟨?_, hbat⟩
  have hblk2 : ∀ j' < c,
      slotBlocks t2.data k ((hashFn k % t.data.length + j') % t.data.length) = true := by
    intro j' hj'
    have hne : (hashFn k % t.data.length + j') % t.data.length ≠ i := by
      intro heq
      rw [hi] at heq
      have := mod_add_inj (n := t.data.length) (lt_trans hj' hcn) hcn heq
      omega
    have hbeq : bucketAt t2.data ((hashFn k % t.data.length + j') % t.data.length) =
        bucketAt t.data ((hashFn k % t.data.length + j') % t.data.length) := by
      rw [hd]
      exact bucketAt_set_ne _ _ _ _ (fun hh => hne hh.symm)
    rw [slotBlocks_congr hbeq]
    exact hblk j' hj'
  have hstop2 : slotStops t2.data k ((hashFn k % t.data.length + c) % t.data.length) = true := by
    rw [← hi]
    unfold slotStops
    rw [hbat]
    simp
  have hpath := probeLoop_path t2.data t2.n_data k c (hashFn k % t2.data.length) 0
    (t2.n_data.toNat + 2) (by rw [hlen2]; exact Nat.mod_lt _ hpos)
    (by rw [hlen2]; exact hblk2)
    (by rw [hlen2]; exact hstop2)
    (fun j' h1 h2 => by
      rcases hbound with h0 | hc
      · omega
      · omega)
    (by omega) (by omega)
  simp only [Nat.zero_add] at hpath
  unfold key_to_bucket
  rw [if_neg (by omega), hpath, hlen2, ← hi]

/-- Writing a new pair into an empty bucket preserves every
previously-successful lookup (also for the same key: its resolved bucket is on
the unchanged portion of its probe path). -/
lemma getVal_mono (hashFn : κ → Nat) (t t2 : Table κ ν) (i : Nat) (k : κ) (v : ν)
    (q : κ) (w : ν)
    (hd : t2.data = t.data.set i (some (k, v)))
    (he : bucketAt t.data i = none)
    (hnd : t.n_data ≤ t2.n_data)
    (hq : getVal hashFn t q = .ok w) :
    getVal hashFn t2 q = .ok w := by
  unfold getVal getitem at hq
  cases hp : key_to_bucket hashFn t q with
  | error e => rw [hp] at hq; simp at hq
  | ok pr =>
    rw [hp] at hq
    obtain ⟨b, c, t1⟩ := pr
    dsimp only at hq
    cases hbk : bucketAt t1.data b with
    | none => rw [hbk] at hq; simp at hq
    | some r =>
      rw [hbk] at hq
      dsimp only at hq
      simp only [Except.ok.injEq] at hq
      obtain ⟨ht1, hpos, hb, hstop, hblk, hbound, hcn⟩ :=
        key_to_bucket_sound hashFn t q b c t1 hp
      subst ht1
      rw [logCollisions_data] at hbk
      have hlen2 : t2.data.length = t.data.length := by rw [hd, List.length_set]
      have hbne : b ≠ i := by
        intro hh
        subst hh
        rw [he] at hbk
        simp at hbk
      have hbat2 : bucketAt t2.data b = some r := by
        rw [hd, bucketAt_set_ne _ _ _ _ (fun hh => hbne hh.symm), hbk]
      have hblk2 : ∀ j' < c,
          slotBlocks t2.data q ((hashFn q % t.data.length + j') % t.data.length) = true := by
        intro j' hj'
        have hocc := slotBlocks_isSome (hblk j' hj')
        have hne : (hashFn q % t.data.length + j') % t.data.length ≠ i := by
          intro heq
          rw [heq, he] at hocc
          simp at hocc
        have hbeq : bucketAt t2.data ((hashFn q % t.data.length + j') % t.data.length) =
            bucketAt t.data ((hashFn q % t.data.length + j') % t.data.length) := by
          rw [hd]
          exact bucketAt_set_ne _ _ _ _ (fun hh => hne hh.symm)
        rw [slotBlocks_congr hbeq]
        exact hblk j' hj'
      have hstop2 : slotStops t2.data q b = true := by
        unfold slotStops
        rw [hbat2]
        unfold slotStops at hstop
        rw [hbk] at hstop
        exact hstop
      have hpath := probeLoop_path t2.data t2.n_data q c (hashFn q % t2.data.length) 0
        (t2.n_data.toNat + 2) (by rw [hlen2]; exact Nat.mod_lt _ hpos)
        (by rw [hlen2]; exact hblk2)
        (by rw [hlen2, ← hb]; exact hstop2)
        (fun j' h1 h2 => by
          rcases hbound with h0 | hc
          · omega
          · omega)
        (by omega) (by omega)
      simp only [Nat.zero_add] at hpath
      have hk2 : key_to_bucket hashFn t2 q = .ok (b, c, logCollisions t2 c) := by
        unfold key_to_bucket
        rw [if_neg (by omega), hpath, hlen2, ← hb]
      unfold getVal getitem
      rw [hk2]
      dsimp only
      rw [logCollisions_data, hbat2]
      dsimp only
      rw [hq]

/-! ### `__setitem__` with the auto-resize branch not taken -/

/-- `__setitem__` with `auto_resize` disabled, resolving to an empty bucket:
a fresh insertion; the pair is stored and `n_data` incremented. -/
lemma setitem_insert_auto_false (hashFn : κ → Nat) (fuel : Nat) (t : Table κ ν)
    (k : κ) (v : ν) (i c : Nat) (t1 : Table κ ν)
    (hauto : t.auto_resize = false)
    (h : key_to_bucket hashFn t k = .ok (i, c, t1))
    (hadd : bucketAt t1.data i = none) :
    setitem hashFn (fuel + 1) t k v =
      .ok { t1 with data := t1.data.set i (some (k, v)), n_data := t1.n_data + 1 } := by
  have ht1 : t1 = logCollisions t c := (key_to_bucket_sound hashFn t k i c t1 h).1
  have hauto1 : t1.auto_resize = false := by rw [ht1]; simp [hauto]
  unfold setitem exec
  rw [h]
  dsimp only
  rw [hadd]
  simp [hauto1]

/-- `__setitem__` with `auto_resize` disabled, resolving to an occupied bucket:
an overwrite; the value is replaced and `n_data` unchanged. -/
lemma setitem_overwrite_auto_false (hashFn : κ → Nat) (fuel : Nat) (t : Table κ ν)
    (k : κ) (v : ν) (i c : Nat) (t1 : Table κ ν) (r : κ × ν)
    (hauto : t.auto_resize = false)
    (h : key_to_bucket hashFn t k = .ok (i, c, t1))
    (hadd : bucketAt t1.data i = some r) :
    setitem hashFn (fuel + 1) t k v =
      .ok { t1 with data := t1.data.set i (some (k, v)) } := by
  have ht1 : t1 = logCollisions t c := (key_to_bucket_sound hashFn t k i c t1 h).1
  have hauto1 : t1.auto_resize = false := by rw [ht1]; simp [hauto]
  unfold setitem exec
  rw [h]
  dsimp only
  rw [hadd]
  simp [hauto1]

/-- A probe `KeyError` makes `__setitem__` raise `ValueError` ("HashTable is
full") with the table untouched. -/
lemma setitem_probe_err (hashFn : κ → Nat) (fuel : Nat) (t : Table κ ν) (k : κ) (v : ν)
    (h : key_to_bucket hashFn t k = .error .keyError) :
    setitem hashFn (fuel + 1) t k v = .error (.valueError, t) := by
  unfold setitem exec
  rw [h]

/-! ### The re-insertion loop of `_resize_data` -/

/-- Re-inserting a list of pairs whose keys are fresh and pairwise distinct
into a table with enough spare buckets (auto-resize off): every insertion
succeeds and lands in an empty bucket, occupancy bookkeeping stays exact, the
new pairs are all readable afterwards, and previously readable pairs keep
their values. -/
lemma reinsert_ok (hashFn : κ → Nat) :
    ∀ (ps : List (κ × ν)) (fuel : Nat) (t : Table κ ν),
      t.auto_resize = false →
      t.n_data = (occCount t.data : Int) →
      occCount t.data + ps.length ≤ t.data.length →
      (ps.map Prod.fst).Nodup →
      (∀ p ∈ ps, ¬ keyStored t.data p.1) →
      ps.length + 1 ≤ fuel →
      ∃ t2, exec hashFn fuel (.reinsert t ps) = .ok t2 ∧
        t2.auto_resize = false ∧
        t2.data.length = t.data.length ∧
        t2.n_data = t.n_data + ps.length ∧
        t2.n_data = (occCount t2.data : Int) ∧
        (∀ p ∈ ps, getVal hashFn t2 p.1 = .ok p.2) ∧
        (∀ q w, getVal hashFn t q = .ok w → getVal hashFn t2 q = .ok w) := by
  intro ps
  induction ps with
  | nil =>
    intro fuel t hauto hnd _hcap _hnodup _hfresh hfuel
    obtain ⟨f, rfl⟩ : ∃ f, fuel = f + 1 := ⟨fuel - 1, by omega⟩
    exact ⟨t, rfl, hauto, rfl, by simp, hnd, by simp, fun q w hq => hq⟩
  | cons p ps ih =>
    obtain ⟨k, v⟩ := p
    intro fuel t hauto hnd hcap hnodup hfresh hfuel
    obtain ⟨f, rfl⟩ : ∃ f, fuel = f + 1 := ⟨fuel - 1, by omega⟩
    obtain ⟨f2, rfl⟩ : ∃ f2, f = f2 + 1 := ⟨f - 1, by simp at hfuel; omega⟩
    have hocc : occCount t.data < t.data.length := by
      simp only [List.length_cons] at hcap
      omega
    have hlen : (occCount t.data : Int) ≤ t.n_data := by omega
    obtain ⟨c, hkb, hcocc, hclt, hstop, hblk⟩ := key_to_bucket_ok hashFn t k hocc hlen
    have hilt : (hashFn k % t.data.length + c) % t.data.length < t.data.length :=
      Nat.mod_lt _ (by omega)
    have hkfresh : ¬ keyStored t.data k := hfresh (k, v) (List.mem_cons_self _ _)
    have hempty : bucketAt t.data ((hashFn k % t.data.length + c) % t.data.length) = none := by
      unfold slotStops at hstop
      cases hbk : bucketAt t.data ((hashFn k % t.data.length + c) % t.data.length) with
      | none => rfl
      | some r =>
        rw [hbk] at hstop
        simp only [decide_eq_true_eq] at hstop
        exact absurd ⟨_, hilt, by rw [hbk]; simp [hstop]⟩ hkfresh
    have hempty1 : bucketAt (logCollisions t c).data
        ((hashFn k % t.data.length + c) % t.data.length) = none := by
      rw [logCollisions_data]; exact hempty
    have hset := setitem_insert_auto_false hashFn f2 t k v _ c _ hauto hkb hempty1
    set tset : Table κ ν :=
      { logCollisions t c with
        data := (logCollisions t c).data.set
          ((hashFn k % t.data.length + c) % t.data.length) (some (k, v))
        n_data := (logCollisions t c).n_data + 1 } with htset
    have htsetd : tset.data =
        t.data.set ((hashFn k % t.data.length + c) % t.data.length) (some (k, v)) := rfl
    have htsetn : tset.n_data = t.n_data + 1 := rfl
    have htseta : tset.auto_resize = t.auto_resize := rfl
    have htsetlen : tset.data.length = t.data.length := by
      rw [htsetd, List.length_set]
    have htsetocc : occCount tset.data = occCount t.data + 1 := by
      rw [htsetd]
      exact occCount_set_some t.data _ _ hilt hempty
    have hgetk : getVal hashFn tset k = .ok v := by
      obtain ⟨hk2, hb2⟩ := probe_after_write hashFn t tset k v _ c _ hkb htsetd (by omega)
      exact getVal_of_probe hashFn tset k v _ c _ hk2 (by rw [logCollisions_data]; exact hb2)
    have hmono : ∀ q w, getVal hashFn t q = .ok w → getVal hashFn tset q = .ok w :=
      fun q w hq => getVal_mono hashFn t tset _ k v q w htsetd hempty (by omega) hq
    have hstored : ∀ q, keyStored tset.data q ↔ (keyStored t.data q ∨ q = k) := by
      intro q
      rw [htsetd]
      exact keyStored_set_some t.data _ k v hilt hempty q
    have hknotin : k ∉ ps.map Prod.fst := (List.nodup_cons.mp hnodup).1
    obtain ⟨t2, hrun, ha2, hl2, hn2, hocc2, hget2, hmono2⟩ :=
      ih (f2 + 1) tset (by rw [htseta]; exact hauto)
        (by rw [htsetn, htsetocc, hnd]; push_cast; ring)
        (by rw [htsetocc, htsetlen]; simp only [List.length_cons] at hcap; omega)
        ((List.nodup_cons.mp hnodup).2)
        (by
          intro p hp
          rw [hstored]
          rintro (hst | hpk)
          · exact hfresh p (List.mem_cons_of_mem _ hp) hst
          · exact hknotin (hpk ▸ List.mem_map_of_mem Prod.fst hp))
        (by simp only [List.length_cons] at hfuel; omega)
    refine ⟨t2, ?_, ha2, by rw [hl2, htsetlen], ?_, hocc2, ?_, ?_⟩
    · show exec hashFn (f2 + 1 + 1) (.reinsert t ((k, v) :: ps)) = .ok t2
      unfold exec
      rw [show exec hashFn (f2 + 1) (.set t k v) = .ok tset from hset]
      exact hrun
    · rw [hn2, htsetn]
      simp only [List.length_cons]
      push_cast
      ring
    · intro p hp
      rcases List.mem_cons.mp hp with rfl | hmem
      · exact hmono2 k v hgetk
      · exact hget2 p hmem
    · intro q w hq
      exact hmono2 q w (hmono q w hq)

/-! ### `_resize_data` with the trigger disabled -/

/-- `_resize_data` on a consistent table (occupancy matches `n_data`, stored
keys pairwise distinct) with `auto_resize` off and an adequate target: it
succeeds, the capacity becomes exactly the target, and every stored pair is
readable afterwards with its value unchanged. -/
lemma resize_ok (hashFn : κ → Nat) (fuel : Nat) (t : Table κ ν) (m : Int)
    (hauto : t.auto_resize = false)
    (hnd : t.n_data = (occCount t.data : Int))
    (hnodup : storedKeysNodup t.data)
    (hm : t.n_data ≤ m)
    (hfuel : (snapshot t.data).length + 2 ≤ fuel) :
    ∃ t2, resize hashFn fuel t m = .ok t2 ∧
      t2.auto_resize = false ∧
      t2.data.length = m.toNat ∧
      t2.n_data = t.n_data ∧
      (∀ i k v, bucketAt t.data i = some (k, v) → getVal hashFn t2 k = .ok v) := by
  obtain ⟨f, rfl⟩ : ∃ f, fuel = f + 1 := ⟨fuel - 1, by omega⟩
  have hsnap : (snapshot t.data).length = occCount t.data := by
    unfold snapshot
    exact reduceOption_length_eq_occCount t.data
  have hr0 : (resetData t m.toNat).data = List.replicate m.toNat none := rfl
  have hrocc : occCount (resetData t m.toNat).data = 0 := by
    rw [hr0]
    exact occCount_replicate_none _
  obtain ⟨t2, hrun, ha2, hl2, hn2, hocc2, hget2, _hmono2⟩ :=
    reinsert_ok hashFn (snapshot t.data) f (resetData t m.toNat)
      (by show t.auto_resize = false; exact hauto)
      (by show (0 : Int) = _; rw [hrocc]; rfl)
      (by
        rw [hrocc, hr0, List.length_replicate, hsnap]
        omega)
      hnodup
      (fun p _hp => by rw [hr0]; exact keyStored_replicate_false _ _)
      (by omega)
  refine ⟨t2, ?_, ha2, ?_, ?_, ?_⟩
  · unfold resize exec
    rw [if_neg (by omega)]
    exact hrun
  · rw [hl2, hr0, List.length_replicate]
  · rw [hn2]
    show (0 : Int) + _ = _
    rw [hsnap]
    omega
  · intro i k v hb
    exact hget2 (k, v) (mem_reduceOption_of_bucketAt hb)

/-! ### With `auto_resize` disabled, capacities are determined -/

/-- With the flag off, a set keeps the capacity, a resize sets it to exactly
the requested size, and every operation keeps the flag off. -/
lemma exec_auto_false_length (hashFn : κ → Nat) :
    ∀ (fuel : Nat) (r : Req κ ν) (t2 : Table κ ν),
      (Req.state r).auto_resize = false →
      exec hashFn fuel r = .ok t2 →
      t2.auto_resize = false ∧
      t2.data.length = (match r with
        | .set t _ _ => t.data.length
        | .resize _ m => m.toNat
        | .reinsert t _ => t.data.length) := by
  intro fuel
  induction fuel with
  | zero => intro r t2 _ h; simp [exec] at h
  | succ f ih =>
    intro r t2 hauto h
    cases r with
    | set t k v =>
      cases hp : key_to_bucket hashFn t k with
      | error e =>
        unfold exec at h
        rw [hp] at h
        cases e <;> simp at h
      | ok pr =>
        obtain ⟨i, c, t1⟩ := pr
        have hst : t.auto_resize = false := hauto
        cases hbk : bucketAt t1.data i with
        | none =>
          rw [show exec hashFn (f + 1) (.set t k v) = _ from
            setitem_insert_auto_false hashFn f t k v i c t1 hst hp hbk] at h
          simp only [Except.ok.injEq] at h
          subst h
          have ht1 : t1 = logCollisions t c := (key_to_bucket_sound hashFn t k i c t1 hp).1
          subst ht1
          exact ⟨hst, by simp [List.length_set]⟩
        | some r =>
          rw [show exec hashFn (f + 1) (.set t k v) = _ from
            setitem_overwrite_auto_false hashFn f t k v i c t1 r hst hp hbk] at h
          simp only [Except.ok.injEq] at h
          subst h
          have ht1 : t1 = logCollisions t c := (key_to_bucket_sound hashFn t k i c t1 hp).1
          subst ht1
          exact ⟨hst, by simp [List.length_set]⟩
    | resize t m =>
      unfold exec at h
      split at h
      · simp at h
      · have hst : t.auto_resize = false := hauto
        have := ih (.reinsert (resetData t m.toNat) (snapshot t.data)) t2 hst h
        refine ⟨this.1, ?_⟩
        have hlen := this.2
        simpa [resetData] using hlen
    | reinsert t ps =>
      cases ps with
      | nil =>
        unfold exec at h
        simp only [Except.ok.injEq] at h
        subst h
        exact ⟨hauto, rfl⟩
      | cons p ps =>
        obtain ⟨k, v⟩ := p
        unfold exec at h
        cases hs : exec hashFn f (.set t k v) with
        | error e => rw [hs] at h; simp at h
        | ok ts =>
          rw [hs] at h
          dsimp only at h
          have hset := ih (.set t k v) ts hauto hs
          have hrest := ih (.reinsert ts ps) t2 hset.1 h
          refine ⟨hrest.1, ?_⟩
          dsimp only at hset hrest ⊢
          rw [hrest.2, hset.2]

/-! ### Set/get round trip and probe success, `auto_resize` off -/

/-- `self[k] = v` with `auto_resize` off and then `self[k]`: the read returns
`v`, on both the insertion and the overwrite path, in any table state. -/
lemma set_get_roundtrip (hashFn : κ → Nat) (fuel : Nat) (t t2 : Table κ ν) (k : κ) (v : ν)
    (hauto : t.auto_resize = false)
    (h : setitem hashFn fuel t k v = .ok t2) :
    getVal hashFn t2 k = .ok v := by
  obtain ⟨f, rfl⟩ : ∃ f, fuel = f + 1 := by
    cases fuel with
    | zero => simp [setitem, exec] at h
    | succ f => exact ⟨f, rfl⟩
  cases hp : key_to_bucket hashFn t k with
  | error e =>
    unfold setitem exec at h
    rw [hp] at h
    cases e <;> simp at h
  | ok pr =>
    obtain ⟨i, c, t1⟩ := pr
    have ht1 : t1 = logCollisions t c := (key_to_bucket_sound hashFn t k i c t1 hp).1
    subst ht1
    cases hbk : bucketAt (logCollisions t c).data i with
    | none =>
      rw [setitem_insert_auto_false hashFn f t k v i c _ hauto hp hbk] at h
      simp only [Except.ok.injEq] at h
      subst h
      obtain ⟨hk2, hb2⟩ := probe_after_write hashFn t
        { logCollisions t c with
            data := (logCollisions t c).data.set i (some (k, v))
            n_data := (logCollisions t c).n_data + 1 } k v i c _ hp rfl
        (by show t.n_data ≤ t.n_data + 1; omega)
      exact getVal_of_probe hashFn _ k v i c _ hk2 (by rw [logCollisions_data]; exact hb2)
    | some r =>
      rw [setitem_overwrite_auto_false hashFn f t k v i c _ r hauto hp hbk] at h
      simp only [Except.ok.injEq] at h
      subst h
      obtain ⟨hk2, hb2⟩ := probe_after_write hashFn t
        { logCollisions t c with
          data := (logCollisions t c).data.set i (some (k, v)) } k v i c _ hp rfl
        (by show t.n_data ≤ t.n_data; omega)
      exact getVal_of_probe hashFn _ k v i c _ hk2 (by rw [logCollisions_data]; exact hb2)

/-- On a consistent table (an empty bucket exists and `n_data` dominates the
occupancy) a set with `auto_resize` off always succeeds. -/
lemma setitem_ok_auto_false (hashFn : κ → Nat) (fuel : Nat) (t : Table κ ν) (k : κ) (v : ν)
    (hauto : t.auto_resize = false)
    (hocc : occCount t.data < t.data.length)
    (hlen : (occCount t.data : Int) ≤ t.n_data) :
    ∃ t2, setitem hashFn (fuel + 1) t k v = .ok t2 := by
  obtain ⟨c, hkb, _h1, _h2, _h3, _h4⟩ := key_to_bucket_ok hashFn t k hocc hlen
  cases hbk : bucketAt (logCollisions t c).data
      ((hashFn k % t.data.length + c) % t.data.length) with
  | none => exact ⟨_, setitem_insert_auto_false hashFn fuel t k v _ c _ hauto hkb hbk⟩
  | some r => exact ⟨_, setitem_overwrite_auto_false hashFn fuel t k v _ c _ r hauto hkb hbk⟩

/-- On a consistent table satisfying the probe-reachability invariant, the get
of a stored key succeeds. -/
lemma getVal_stored (hashFn : κ → Nat) (t : Table κ ν)
    (hocc : occCount t.data < t.data.length)
    (hnd : t.n_data = (occCount t.data : Int))
    (hreach : probeReachable hashFn t)
    (b : Nat) (hb : b < t.data.length) (p : κ × ν)
    (hp : bucketAt t.data b = some p) :
    ∃ w, getVal hashFn t p.1 = .ok w := by
  obtain ⟨c, hkb, hcocc, hclt, hstop, hblk⟩ := key_to_bucket_ok hashFn t p.1 hocc (by omega)
  have hreachb := hreach b hb
  unfold reachOK at hreachb
  rw [hp] at hreachb
  obtain ⟨j, _hjle, hjint, hjpos, hjpath⟩ := hreachb
  have hsome : ∃ r : κ × ν,
      bucketAt t.data ((hashFn p.1 % t.data.length + c) % t.data.length) = some r := by
    cases hbk : bucketAt t.data ((hashFn p.1 % t.data.length + c) % t.data.length) with
    | some r => exact ⟨r, rfl⟩
    | none =>
      exfalso
      rcases lt_trichotomy c j with hlt | heq | hgt
      · exact hjpath c hlt hbk
      · rw [heq, hjpos, hp] at hbk
        simp at hbk
      · have hb2 := hblk j hgt
        unfold slotBlocks at hb2
        rw [hjpos, hp] at hb2
        simp at hb2
  obtain ⟨⟨rk, rv⟩, hr⟩ := hsome
  have hrk : rk = p.1 := by
    unfold slotStops at hstop
    rw [hr] at hstop
    simpa using hstop
  subst hrk
  exact ⟨rv, getVal_of_probe hashFn t p.1 rv _ c _ hkb (by rw [logCollisions_data]; exact hr)⟩

/-! ### Operations on a completely full table -/

/-- On a completely full table, probing for a key stored in bucket `j` (and
only there) resolves to `j` after exactly the probe-distance collisions. -/
lemma full_probe_present (hashFn : κ → Nat) (t : Table κ ν) (j : Nat) (k : κ) (v : ν)
    (hfull : ∀ b < t.data.length, (bucketAt t.data b).isSome = true)
    (hnd : (t.data.length : Int) ≤ t.n_data)
    (hj : j < t.data.length)
    (hjk : bucketAt t.data j = some (k, v))
    (hunique : ∀ b < t.data.length, (bucketAt t.data b).map Prod.fst = some k → b = j) :
    key_to_bucket hashFn t k =
      .ok (j, (j + t.data.length - hashFn k % t.data.length) % t.data.length,
        logCollisions t ((j + t.data.length - hashFn k % t.data.length) % t.data.length)) := by
  have hn : 0 < t.data.length := by omega
  set s := hashFn k % t.data.length with hsdef
  have hs : s < t.data.length := Nat.mod_lt _ hn
  set d := (j + t.data.length - s) % t.data.length with hddef
  have hd : d < t.data.length := Nat.mod_lt _ hn
  have hsd : (s + d) % t.data.length = j := by
    rw [hddef, Nat.add_mod_mod]
    have he : s + (j + t.data.length - s) = j + t.data.length := by omega
    rw [he, Nat.add_mod_right, Nat.mod_eq_of_lt hj]
  have hblk : ∀ d' < d, slotBlocks t.data k ((s + d') % t.data.length) = true := by
    intro d' hd'
    have hlt : (s + d') % t.data.length < t.data.length := Nat.mod_lt _ hn
    have hnej : (s + d') % t.data.length ≠ j := by
      intro heq
      rw [← hsd] at heq
      have := mod_add_inj (lt_trans hd' hd) hd heq
      omega
    have hso := hfull _ hlt
    unfold slotBlocks
    cases hbk : bucketAt t.data ((s + d') % t.data.length) with
    | none => rw [hbk] at hso; simp at hso
    | some r =>
      simp only [decide_eq_true_eq]
      intro hrk
      exact hnej (hunique _ hlt (by rw [hbk]; simp [hrk]))
  have hstop : slotStops t.data k ((s + d) % t.data.length) = true := by
    rw [hsd]
    unfold slotStops
    rw [hjk]
    simp
  have hpath := probeLoop_path t.data t.n_data k d s 0 (t.n_data.toNat + 2) hs hblk hstop
    (fun j' h1 h2 => by omega)
    (by omega) (by omega)
  simp only [Nat.zero_add] at hpath
  unfold key_to_bucket
  rw [if_neg (by omega), hpath, hsd]

/-- On a completely full table, probing for an absent key runs past the probe
bound and raises `KeyError`. -/
lemma full_probe_absent (hashFn : κ → Nat) (t : Table κ ν) (k : κ)
    (hfull : ∀ b < t.data.length, (bucketAt t.data b).isSome = true)
    (hpos : 0 < t.data.length)
    (habs : ¬ keyStored t.data k) :
    key_to_bucket hashFn t k = .error .keyError := by
  have hballs : ∀ b < t.data.length, slotBlocks t.data k b = true := by
    intro b hb
    have hso := hfull b hb
    unfold slotBlocks
    cases hbk : bucketAt t.data b with
    | none => rw [hbk] at hso; simp at hso
    | some r =>
      simp only [decide_eq_true_eq]
      intro hrk
      exact habs ⟨b, hb, by rw [hbk]; simp [hrk]⟩
  unfold key_to_bucket
  rw [if_neg (by omega)]
  rw [probeLoop_blocked_err t.data t.n_data k _ _ _ (Nat.mod_lt _ hpos) hballs
    (by omega) (by omega)]

/-! ### Claim theorems -/

/-- Claim C1 (code bug, evaluation at the failing input): deleting an absent
key from a fresh 2-bucket table does not fail with `KeyNotFound`; the code
"succeeds", logging the probe, clearing the already-empty bucket 0, and
decrementing `n_data` to -1. -/
theorem C1_delete_absent_no_error :
    delitem hashId (mkTable (κ := Nat) (ν := Nat) 2 false (1/2) 1) 0 =
      .ok ⟨1, 1/2, -1, [none, none], false, [(2, 0, 0)], 0⟩ := by
  decide

/-- Claim C2 (code bug, evaluation at the failing input): the probe
reachability invariant holds after `set 0`, `set 4` on four buckets, the
delete of key 0 succeeds, and afterwards the invariant is broken — key 4 in
bucket 1 now sits behind the empty bucket 0. -/
theorem C2_delete_breaks_reachability :
    probeReachable hashId c2Before ∧
    (delitem hashId c2Before 0).isOk = true ∧
    ¬ probeReachable hashId c2After := by
  decide

/-- Claim C3 counterexample: on a reachable table with `auto_resize` enabled
(threshold 1/2, increment 100, three entries), the explicit `resize(4)`
succeeds but completes with 104 buckets, because `_resize_data` re-inserts via
the full `__setitem__`, whose auto-resize trigger fires mid-rehash and
recurses into `_resize_data` again. -/
theorem C3_resize_cascades :
    c3Start.n_data = 3 ∧ (3 : Int) ≤ 4 ∧
    (exec hashId 20 (.resize c3Start 4)).map (fun t => t.data.length) = .ok 104 ∧
    (104 : Nat) ≠ 4 := by
  decide

/-- Claim C3 amended: with `auto_resize` disabled the re-insertion loop never
recurses, and a successful explicit `resize(m)` always completes with
`n_buckets` equal to exactly `m`. -/
theorem C3_resize_exact_when_auto_off (hashFn : κ → Nat) (fuel : Nat) (t t2 : Table κ ν)
    (m : Int) (hauto : t.auto_resize = false)
    (h : resize hashFn fuel t m = .ok t2) :
    t2.data.length = m.toNat :=
  (exec_auto_false_length hashFn fuel (.resize t m) t2 hauto h).2

/-- Witness for the amended C3: resizing an empty table from 2 to 3 buckets
with the flag off ends with exactly 3 buckets. -/
theorem C3_witness :
    (mkTable (κ := Nat) (ν := Nat) 2 false (1/2) 1).auto_resize = false ∧
    resize hashId 5 (mkTable (κ := Nat) (ν := Nat) 2 false (1/2) 1) 3 =
      .ok ⟨1, 1/2, 0, [none, none, none], false, [], 0⟩ ∧
    (⟨1, 1/2, 0, [none, none, none], false, [], 0⟩ : Table Nat Nat).data.length =
      (3 : Int).toNat :=
  ⟨rfl, by decide,
    C3_resize_exact_when_auto_off hashId 5 (mkTable 2 false (1/2) 1)
      ⟨1, 1/2, 0, [none, none, none], false, [], 0⟩ 3 rfl (by decide)⟩

/-- Claim C4 (code bug, evaluation at the failing input): after storing key 0
in a 2-bucket table, deleting the absent key 1 succeeds and leaves `n_data` at
0 while one bucket is still occupied — `n_data` no longer equals the count of
non-empty buckets. -/
theorem C4_ndata_mismatch :
    (delitem hashId c4Mid 1).isOk = true ∧
    c4After.n_data = 0 ∧
    occCount c4After.data = 1 := by
  decide

/-- Claim C5 counterexample: constructing with zero initial capacity fails
with nothing — a table with zero buckets is produced (and the invalid
fraction 7/10 with increment 100 are stored untouched). -/
theorem C5_zero_capacity_constructs :
    mkTable (κ := Nat) (ν := Nat) 0 true (7/10) 100 =
      ⟨100, 7/10, 0, [], true, [], 0⟩ := by
  rfl

/-- Claim C5 amended: the constructor validates nothing.  For every argument
combination — zero capacity, non-positive increment, fraction outside (0,1)
included — it returns a table with exactly the given configuration, zero
`n_data`, all buckets empty and empty logs; with zero capacity the failure
surfaces only on first access, as `ZeroDivisionError` from `hash(key) %
n_buckets`, not as a `ConfigurationError`. -/
theorem C5_constructor_no_validation (hashFn : κ → Nat) (nb : Nat) (ar : Bool)
    (mu : ℚ) (bi : Int) (k : κ) :
    (mkTable (κ := κ) (ν := ν) nb ar mu bi).bucket_increment = bi ∧
    (mkTable (κ := κ) (ν := ν) nb ar mu bi).max_utilization_fraction = mu ∧
    (mkTable (κ := κ) (ν := ν) nb ar mu bi).n_data = 0 ∧
    (mkTable (κ := κ) (ν := ν) nb ar mu bi).data = List.replicate nb none ∧
    (mkTable (κ := κ) (ν := ν) nb ar mu bi).auto_resize = ar ∧
    (mkTable (κ := κ) (ν := ν) nb ar mu bi).collision_log = [] ∧
    key_to_bucket hashFn (mkTable (κ := κ) (ν := ν) 0 ar mu bi) k =
      .error .zeroDivisionError :=
  ⟨rfl, rfl, rfl, rfl, rfl, rfl, by
    unfold key_to_bucket
    rw [if_pos (by simp [mkTable])]⟩

/-- Claim C6 counterexample: a reachable corrupt table (a stale duplicate of
key 2 created by the buggy delete) with `auto_resize` off, `len() = 2` and
resize target 4 ≥ 2: before the resize `get 2` returns 30, after the resize it
returns 20 — a stored pair is not preserved. -/
theorem C6_duplicate_key_resize_loses_value :
    c6Pre.n_data = 2 ∧ (2 : Int) ≤ 4 ∧
    getVal hashId c6Pre 2 = .ok 30 ∧
    (exec hashId 9 (.resize c6Pre 4)).map (fun t => getVal hashId t 2) =
      .ok (.ok 20) ∧
    (30 : Nat) ≠ 20 := by
  decide

/-- Claim C6 amended: on a table whose `n_data` matches its occupancy and
whose stored keys are pairwise distinct (both hold until a delete of an absent
key corrupts the state) and with `auto_resize` disabled, `_resize_data` to any
`m ≥ len()` succeeds, sets the capacity to exactly `m`, preserves `n_data`,
and every stored pair is retrievable afterwards with its value unchanged. -/
theorem C6_resize_preserves_data (hashFn : κ → Nat) (fuel : Nat) (t : Table κ ν) (m : Int)
    (hauto : t.auto_resize = false)
    (hnd : t.n_data = (occCount t.data : Int))
    (hnodup : storedKeysNodup t.data)
    (hm : t.n_data ≤ m)
    (hfuel : (snapshot t.data).length + 2 ≤ fuel) :
    ∃ t2, resize hashFn fuel t m = .ok t2 ∧
      t2.data.length = m.toNat ∧ t2.n_data = t.n_data ∧
      ∀ i k v, bucketAt t.data i = some (k, v) → getVal hashFn t2 k = .ok v := by
  obtain ⟨t2, h1, _h2, h3, h4, h5⟩ := resize_ok hashFn fuel t m hauto hnd hnodup hm hfuel
  exact ⟨t2, h1, h3, h4, h5⟩

/-- Witness for the amended C6: a one-entry table resized from 1 to 2 buckets
keeps its pair readable. -/
theorem C6_witness :
    ∃ t2, resize hashId 5 (⟨1, 1/2, 1, [some (0, 7)], false, [], 0⟩ : Table Nat Nat) 2 =
        .ok t2 ∧
      t2.data.length = (2 : Int).toNat ∧ t2.n_data = 1 ∧
      ∀ i k v, bucketAt [some (0, 7)] i = some (k, v) → getVal hashId t2 k = .ok v :=
  C6_resize_preserves_data hashId 5 _ 2 rfl (by decide) (by decide) (by decide) (by decide)

/-- Claim C7: for every table and every resize target `m < len()` the resize
fails with `ValueError` (the spec's `CapacityError`) and returns with the
table exactly as it was — buckets, `n_data`, and collision log included — the
capacity check precedes every mutation. -/
theorem C7_resize_failure_atomic (hashFn : κ → Nat) (fuel : Nat) (t : Table κ ν) (m : Int)
    (h : m < t.n_data) :
    resize hashFn (fuel + 1) t m = .error (.valueError, t) := by
  unfold resize exec
  rw [if_pos h]

/-- Witness for C7: a one-entry table refuses to resize to zero buckets and is
returned untouched. -/
theorem C7_witness :
    (0 : Int) < (⟨1, 1/2, 1, [some (0, 5), none], false, [], 0⟩ : Table Nat Nat).n_data ∧
    resize hashId 4 (⟨1, 1/2, 1, [some (0, 5), none], false, [], 0⟩ : Table Nat Nat) 0 =
      .error (.valueError, ⟨1, 1/2, 1, [some (0, 5), none], false, [], 0⟩) :=
  ⟨by decide, C7_resize_failure_atomic hashId 3 _ 0 (by decide)⟩

/-- Claim C8 counterexample: a reachable table (delete of absent key 0 after
two inserts) with `n_buckets = 4 > n_data = 1` that satisfies the probe
reachability invariant, on which resolution for key 5 does not terminate at an
empty or matching bucket within `n_data + 1` examinations: it runs into the
`KeyError` (NotFound) branch because two occupied buckets exceed the corrupted
bound. -/
theorem C8_probe_bound_unsound_when_ndata_corrupt :
    c8State.n_data = 1 ∧ c8State.data.length = 4 ∧
    probeReachable hashId c8State ∧
    key_to_bucket hashId c8State 5 = .error .keyError := by
  decide

/-- Claim C8 amended: additionally assuming that `n_data` equals the occupied
count (which the buggy delete can violate — see the counterexample), on a
table with `n_buckets > n_data` satisfying probe reachability: every
resolution terminates at an empty or matching bucket within `n_data + 1`
examinations (the NotFound branch is never reached), get of any stored key
succeeds, and — with `auto_resize` off, so that no cascaded resize can fail
after the insertion — set always succeeds. -/
theorem C8_probe_bound_sound (hashFn : κ → Nat) (t : Table κ ν)
    (hnd : t.n_data = (occCount t.data : Int))
    (hlt : t.n_data < (t.data.length : Int))
    (hreach : probeReachable hashFn t) :
    (∀ k : κ, ∃ i c, key_to_bucket hashFn t k = .ok (i, c, logCollisions t c) ∧
      (c : Int) ≤ t.n_data ∧ slotStops t.data k i = true) ∧
    (∀ b < t.data.length, ∀ p : κ × ν, bucketAt t.data b = some p →
      ∃ w, getVal hashFn t p.1 = .ok w) ∧
    (t.auto_resize = false → ∀ (fuel : Nat) (k : κ) (v : ν),
      ∃ t2, setitem hashFn (fuel + 1) t k v = .ok t2) := by
  have hocc : occCount t.data < t.data.length := by omega
  refine ⟨?_, ?_, ?_⟩
  · intro k
    obtain ⟨c, hkb, hcocc, _hclt, hstop, _hblk⟩ := key_to_bucket_ok hashFn t k hocc (by omega)
    exact ⟨_, c, hkb, by omega, hstop⟩
  · intro b hb p hp
    exact getVal_stored hashFn t hocc hnd hreach b hb p hp
  · intro hauto fuel k v
    exact setitem_ok_auto_false hashFn fuel t k v hauto hocc (by omega)

/-- Witness for the amended C8: on a consistent one-entry two-bucket table,
resolution for the absent key 7 terminates within the bound at a stopping
bucket. -/
theorem C8_witness :
    ∃ i c, key_to_bucket hashId
        (⟨1, 1/2, 1, [some (0, 5), none], false, [], 0⟩ : Table Nat Nat) 7 =
      .ok (i, c, logCollisions
        (⟨1, 1/2, 1, [some (0, 5), none], false, [], 0⟩ : Table Nat Nat) c) ∧
      (c : Int) ≤ (⟨1, 1/2, 1, [some (0, 5), none], false, [], 0⟩ : Table Nat Nat).n_data ∧
      slotStops [some ((0 : Nat), (5 : Nat)), none] 7 i = true :=
  (C8_probe_bound_sound hashId _ (by decide) (by decide) (by decide)).1 7

/-- Claim C9 counterexample: a reachable table state (built with `auto_resize`
on, threshold 3/4, increment 4, using the buggy delete to orphan a stale copy
of key 8) on which `set 8 ↦ 50` succeeds, triggers the automatic rehash, and
the immediately following `get 8` returns the stale 20 instead of 50. -/
theorem C9_roundtrip_broken_by_rehash :
    (exec hashId 9 (.set c9State 8 50)).isOk = true ∧
    (exec hashId 9 (.set c9State 8 50)).map (fun t => getVal hashId t 8) =
      .ok (.ok 20) ∧
    (20 : Nat) ≠ 50 := by
  decide

/-- Claim C9 amended: when the set cannot trigger an automatic rehash
(`auto_resize` disabled), `set(k, v)` followed immediately by `get(k)` returns
`v` on every table state — insertion and overwrite alike, corrupted states
included. -/
theorem C9_set_get_roundtrip (hashFn : κ → Nat) (fuel : Nat) (t t2 : Table κ ν)
    (k : κ) (v : ν) (hauto : t.auto_resize = false)
    (h : setitem hashFn fuel t k v = .ok t2) :
    getVal hashFn t2 k = .ok v :=
  set_get_roundtrip hashFn fuel t t2 k v hauto h

/-- Witness for the amended C9: set then get on a fresh 2-bucket table. -/
theorem C9_witness :
    getVal hashId (⟨1, 1/2, 1, [some (0, 7), none], false, [(2, 0, 0)], 0⟩ : Table Nat Nat)
      0 = .ok 7 :=
  C9_set_get_roundtrip hashId 3 (mkTable 2 false (1/2) 1) _ 0 7 rfl (by decide)

/-- Claim C10 counterexample: a reachable completely full table (2 buckets, 2
entries, `auto_resize` on with increment -1) on which `set` of the present key
0 does not succeed: the overwrite lands, but the trigger then calls
`_resize_data(1)`, which raises `ValueError`, so the operation fails even
though the key is present. -/
theorem C10_full_table_present_set_fails :
    c10Full.n_data = 2 ∧ c10Full.data.length = 2 ∧
    (∀ b < 2, (bucketAt c10Full.data b).isSome = true) ∧
    (bucketAt c10Full.data 0).map Prod.fst = some 0 ∧
    (exec hashId 9 (.set c10Full 0 99)).isOk = false := by
  decide

/-- Claim C10 amended: on a completely full table (`n_data = n_buckets`, every
bucket occupied) with `auto_resize` disabled (so the post-overwrite trigger
cannot fire a failing resize — see the counterexample) and the present key
stored in exactly one bucket: get returns the stored value; set of that key
succeeds as an in-place overwrite, leaves `n_data` unchanged, and the new
value is readable; and set of any absent key fails with `ValueError`
(CapacityError), with the probe reaching the bound after at most
`n_buckets - 1 ≤ n_data` collisions. -/
theorem C10_full_table_ops (hashFn : κ → Nat) (fuel : Nat) (t : Table κ ν)
    (j : Nat) (k : κ) (v w : ν) (q : κ)
    (hauto : t.auto_resize = false)
    (hfull : ∀ b < t.data.length, (bucketAt t.data b).isSome = true)
    (hnd : t.n_data = (t.data.length : Int))
    (hj : j < t.data.length)
    (hjk : bucketAt t.data j = some (k, v))
    (hunique : ∀ b < t.data.length, (bucketAt t.data b).map Prod.fst = some k → b = j)
    (habs : ¬ keyStored t.data q) :
    getVal hashFn t k = .ok v ∧
    (∃ t2, setitem hashFn (fuel + 1) t k w = .ok t2 ∧ t2.n_data = t.n_data ∧
      getVal hashFn t2 k = .ok w) ∧
    setitem hashFn (fuel + 1) t q w = .error (.valueError, t) := by
  have hnd2 : (t.data.length : Int) ≤ t.n_data := by omega
  have hkb := full_probe_present hashFn t j k v hfull hnd2 hj hjk hunique
  refine ⟨?_, ?_, ?_⟩
  · exact getVal_of_probe hashFn t k v j _ _ hkb (by rw [logCollisions_data]; exact hjk)
  · have hbk1 : bucketAt (logCollisions t
        ((j + t.data.length - hashFn k % t.data.length) % t.data.length)).data j =
        some (k, v) := by
      rw [logCollisions_data]
      exact hjk
    have hset := setitem_overwrite_auto_false hashFn fuel t k w j _ _ (k, v) hauto hkb hbk1
    refine ⟨_, hset, rfl, ?_⟩
    obtain ⟨hk2, hb2⟩ := probe_after_write hashFn t
      { logCollisions t ((j + t.data.length - hashFn k % t.data.length) % t.data.length) with
          data := (logCollisions t
            ((j + t.data.length - hashFn k % t.data.length) % t.data.length)).data.set j
            (some (k, w)) } k w j _ _ hkb rfl (le_refl _)
    exact getVal_of_probe hashFn _ k w j _ _ hk2 (by rw [logCollisions_data]; exact hb2)
  · exact setitem_probe_err hashFn fuel t q w
      (full_probe_absent hashFn t q hfull (by omega) habs)

/-- Witness for the amended C10: a full two-bucket table with keys 0 and 1;
get and overwrite of key 0 succeed, set of the absent key 7 fails. -/
theorem C10_witness :
    getVal hashId c10Wit 0 = .ok 5 ∧
    (∃ t2, setitem hashId 4 c10Wit 0 9 = .ok t2 ∧ t2.n_data = c10Wit.n_data ∧
      getVal hashId t2 0 = .ok 9) ∧
    setitem hashId 4 c10Wit 7 9 = .error (.valueError, c10Wit) :=
  C10_full_table_ops hashId 3 c10Wit 0 0 5 9 7 rfl (by decide) (by decide) (by decide)
    (by decide) (by decide) (by decide)
